import Mathlib

/-!
Verification of `thread_extra.py` (ThreadSet / ThreadManager).

Shallow embedding conventions:
* A native thread handle is identified by a `ThreadId` (a `Nat`).  Its runtime
  state (`not started / running / finished`) lives in an environment
  `Env : ThreadId → ThreadState`, mirroring the mutable state of real
  `threading.Thread` objects.
* `ThreadSet._threads` is a Python `set` of thread objects, embedded as a
  `Finset ThreadId` (membership by identity, no duplicates, no order).
* Timeouts are Python `float | None`; no arithmetic on their value is involved
  in any claim, so the value domain is embedded as `Option Rat`.
* Exceptions are embedded with `Except PyErr` / an `Option PyErr` out-channel.
* The blocking behaviour of `join` is irrelevant to the statements proved
  here; what matters is which join calls complete, with which timeout, what
  value `join` returns, and the `RuntimeError` raised when a never-started
  thread is joined.  Loops that call `join` therefore produce the trace of
  completed join calls together with the loop's outcome.
-/

/-- Identity of a `threading.Thread` object (Python object identity, the key
used for set membership and deduplication). -/
abbrev ThreadId := Nat

/-- Runtime lifecycle state of a native thread. -/
inductive ThreadState where
  | notStarted
  | running
  | finished
deriving DecidableEq

/-- Mutable state of the world of thread objects: the lifecycle state of each
thread identity. -/
abbrev Env := ThreadId → ThreadState

/-- Python exceptions relevant to this module. -/
inductive PyErr where
  | typeError
  | runtimeError
deriving DecidableEq

/-- Embedding of `Thread.is_alive()` (stdlib): `True` exactly while the thread
is running; `False` before `start()` and after the run method terminates. -/
def isAlive : ThreadState → Bool
  | .running => true
  | _ => false

/-- Embedding of `Thread.start()` (stdlib): transitions a not-started thread to
running; raises `RuntimeError` if the thread was already started (running or
finished). -/
def threadStart : ThreadState → Except PyErr ThreadState
  | .notStarted => .ok .running
  | _ => .error .runtimeError

/-- Embedding of `Thread.join(timeout)` (stdlib): raises `RuntimeError` when
the thread was never started; otherwise blocks until the thread finishes or
the timeout elapses — `finishesInTime` is the oracle for whether the thread's
work completes within the timeout window — and succeeds with the thread's
resulting state and the call's returned value, which is `None` (embedded as
`Unit`) whether the thread finished or the timeout expired first. -/
def threadJoin (st : ThreadState) (finishesInTime : Bool) :
    Except PyErr (ThreadState × Unit) :=
  match st with
  | .notStarted => .error .runtimeError
  | .running => .ok (if finishesInTime then .finished else .running, ())
  | .finished => .ok (.finished, ())

/-- Python values a `ThreadSet` operand position can hold: a `ThreadSet`
instance (carrying its `_threads` membership) or some non-`ThreadSet` value. -/
inductive PyVal where
  | tset (s : Finset ThreadId)
  | pyInt (n : Int)
  | pyNone
deriving DecidableEq

/-- Object heap for `ThreadSet` identity/mutation questions: a list of Python
objects, indexed by reference (list position = object identity). -/
abbrev Heap := List PyVal

/-- Embedding of `ThreadSet.__init__`: `self._threads = set(threads)` — membership is the
identity-deduplicated content of the initialising collection. -/
def tsInit (threads : List ThreadId) : Finset ThreadId :=
  threads.toFinset

/-- Embedding of the set union `self._threads | other._threads` used by `__or__` and
`__ior__`. -/
def tsUnionSets (s1 s2 : Finset ThreadId) : Finset ThreadId :=
  s1 ∪ s2

/-- Embedding of `ThreadSet.__len__`: `len(self._threads)`. -/
def tsLen (s : Finset ThreadId) : Nat :=
  s.card

/-- Embedding of `ThreadSet.__or__` on the heap: the receiver is the object at reference
`i`, the operand the object at reference `j`.  If the operand is not a
`ThreadSet`, raise `TypeError`; otherwise allocate a new `ThreadSet` (at the
fresh reference `h.length`) holding the union, leaving existing objects
untouched.  (The fallback arm for a non-`ThreadSet` receiver cannot arise from
a Python method call and is never exercised by the theorems.) -/
def tsOr (h : Heap) (i j : Nat) : Except PyErr (Heap × Nat) :=
  match h[j]? with
  | some (.tset s2) =>
    match h[i]? with
    | some (.tset s1) => .ok (h ++ [.tset (tsUnionSets s1 s2)], h.length)
    | _ => .error .runtimeError
  | _ => .error .typeError

/-- Embedding of `ThreadSet.__ior__` on the heap: if the operand at reference `j` is not a
`ThreadSet`, raise `TypeError`; otherwise update the receiver object at
reference `i` in place (`self._threads |= other._threads`) and return the
receiver's own reference (`return self`). -/
def tsIor (h : Heap) (i j : Nat) : Except PyErr (Heap × Nat) :=
  match h[j]? with
  | some (.tset s2) =>
    match h[i]? with
    | some (.tset s1) => .ok (h.set i (.tset (tsUnionSets s1 s2)), i)
    | _ => .error .runtimeError
  | _ => .error .typeError

/-- Embedding of `ThreadSet.start`: `for t in self._threads: t.start()`.  The iteration
order of a Python set is unspecified, so the loop is embedded over an
arbitrary enumeration `l` of the membership; the theorems quantify over all
enumerations.  An exception from `t.start()` aborts the loop, leaving the
environment as mutated so far. -/
def startList (env : Env) : List ThreadId → Env × Option PyErr
  | [] => (env, none)
  | t :: ts =>
    match threadStart (env t) with
    | .ok st => startList (Function.update env t st) ts
    | .error e => (env, some e)

/-- Embedding of `ThreadSet.join`: `for t in self._threads: t.join(timeout)`,
over an arbitrary enumeration of the membership.  Each completed `t.join`
records `(member, timeout)` in the trace and may transition that member
running → finished (per the `fin` oracle); the `RuntimeError` a never-started
member's `join` raises propagates, aborting the loop with the remaining
members unjoined.  Result: (final thread states, trace of completed join
calls, the method's outcome — `None` on normal completion, since the source
annotates the method `-> None`, or the propagated exception). -/
def tsJoin (fin : ThreadId → Bool) (env : Env) :
    List ThreadId → Option Rat →
      Env × List (ThreadId × Option Rat) × Except PyErr Unit
  | [], _ => (env, [], .ok ())
  | t :: ts, timeout =>
    match threadJoin (env t) (fin t) with
    | .ok (st, _) =>
      let r := tsJoin fin (Function.update env t st) ts timeout
      (r.1, (t, timeout) :: r.2.1, r.2.2)
    | .error e => (env, [], .error e)

/-- The generator object returned by `ThreadSet.is_alive`:
`(t.is_alive() for t in self._threads)`.  It holds the members not yet
yielded; no liveness value is computed at creation time. -/
structure AliveGen where
  remaining : List ThreadId
deriving DecidableEq

/-- Embedding of `ThreadSet.is_alive`: returns the generator, taking no liveness snapshot
yet (the environment is not even consulted). -/
def tsIsAlive (members : List ThreadId) : AliveGen :=
  ⟨members⟩

/-- One `next()` step on the generator: yields the liveness snapshot of the
next member, taken in the environment at the moment of the step. -/
def genNext (g : AliveGen) (env : Env) : Option (Bool × AliveGen) :=
  match g.remaining with
  | [] => none
  | t :: ts => some (isAlive (env t), ⟨ts⟩)

/-- Driving `genNext` to exhaustion in environment `env`: the yielded
snapshots and the exhausted generator. -/
def consumeFrom (env : Env) : List ThreadId → List Bool
  | [] => []
  | t :: ts => isAlive (env t) :: consumeFrom env ts

/-- Full consumption of the generator (e.g. by `list(...)` or a `for` loop):
yields one snapshot per remaining member, each taken in the environment at
consumption time, and leaves the generator exhausted. -/
def consumeAll (g : AliveGen) (env : Env) : List Bool × AliveGen :=
  (consumeFrom env g.remaining, ⟨[]⟩)

/-- State of a `ThreadManager`: the configured default join timeout and the
registry of every thread created through the factory, in creation order. -/
structure ThreadManager where
  join_timeout : Option Rat
  threads : List ThreadId
deriving DecidableEq

/-- Embedding of `ThreadManager.__init__(join_timeout=None)`: empty registry. -/
def tmInit (join_timeout : Option Rat) : ThreadManager :=
  ⟨join_timeout, []⟩

/-- Embedding of `ThreadManager.__call__(target, *args, **kwargs)`: constructs a new
`Thread` (its identity is drawn from the allocator counter `a`; the target and
arguments are bound into the thread object and play no role in registry
bookkeeping), appends it to `self._threads`, and returns it.  Result:
(new allocator counter, new manager state, the returned thread). -/
def tmCall (a : Nat) (m : ThreadManager) : Nat × ThreadManager × ThreadId :=
  (a + 1, { m with threads := m.threads ++ [a] }, a)

/-- Embedding of `ThreadManager.create_thread(*args, **kwargs)`: constructs a new `Thread`
from a pre-shaped configuration; identical registry behaviour to
`__call__`. -/
def tmCreateThread (a : Nat) (m : ThreadManager) : Nat × ThreadManager × ThreadId :=
  (a + 1, { m with threads := m.threads ++ [a] }, a)

/-- A factory operation on the manager. -/
inductive FactoryOp where
  | call
  | createThread
deriving DecidableEq

/-- A sequence of factory calls on one manager.  In CPython each
`list.append` is a single atomic operation, so any concurrent execution of
factory calls is equivalent to some sequential interleaving, i.e. to some
`List FactoryOp` here.  Returns the final allocator counter, the final manager
state, and the created threads in call order. -/
def runFactory (a : Nat) (m : ThreadManager) : List FactoryOp → Nat × ThreadManager × List ThreadId
  | [] => (a, m, [])
  | op :: ops =>
    let r := match op with
      | .call => tmCall a m
      | .createThread => tmCreateThread a m
    let r2 := runFactory r.1 r.2.1 ops
    (r2.1, r2.2.1, r.2.2 :: r2.2.2)

/-- Embedding of `ThreadManager.__enter__`: the body is `pass`, so the call returns
`None` — the value bound by `with ThreadManager() as tm` is `None`, not the
manager. -/
def tmEnter (_m : ThreadManager) : Option ThreadManager :=
  none

/-- The loop of `ThreadManager.__exit__`:
`for thread in self._threads: if thread.is_alive(): thread.join(self._join_timeout)`.
Produces the trace of issued join calls. -/
def joinLoop (timeout : Option Rat) (env : Env) : List ThreadId → List (ThreadId × Option Rat)
  | [] => []
  | t :: ts =>
    if isAlive (env t) then (t, timeout) :: joinLoop timeout env ts
    else joinLoop timeout env ts

/-- Embedding of `ThreadManager.__exit__(self, *args)`: the exception information (`none`
on a normal or early return, `some e` on a propagating fault) is accepted and
ignored, and the registry is walked joining every thread observed alive with
the manager's configured default timeout. -/
def tmExit (m : ThreadManager) (env : Env) (_exc : Option PyErr) : List (ThreadId × Option Rat) :=
  joinLoop m.join_timeout env m.threads

/-! Helper lemmas. -/

/-- The exit loop joins exactly the alive threads, each with the configured
timeout, in registry order. -/
lemma joinLoop_eq (timeout : Option Rat) (env : Env) :
    ∀ l : List ThreadId,
      joinLoop timeout env l =
        (l.filter (fun t => isAlive (env t))).map (fun t => (t, timeout)) := by
  intro l
  induction l with
  | nil => rfl
  | cons a as ih =>
    by_cases ha : isAlive (env a) <;> simp [joinLoop, ha, List.filter_cons, ih]

/-- Full consumption of the generator maps the liveness snapshot over the
remaining members. -/
lemma consumeFrom_eq (env : Env) :
    ∀ ms : List ThreadId, consumeFrom env ms = ms.map (fun t => isAlive (env t)) := by
  intro ms
  induction ms with
  | nil => rfl
  | cons t ts ih => simp [consumeFrom, ih]

/-! Claims. -/

/-- C9: `ThreadManager.__enter__` always returns `None`, so
`with ThreadManager() as tm` binds `None` rather than the manager object. -/
theorem spec_C9 : ∀ m : ThreadManager, tmEnter m = none := by
  intro m
  rfl

/-- Witness for C9 at a concrete manager. -/
theorem spec_C9_witness : tmEnter (tmInit none) = none :=
  spec_C9 (tmInit none)

/-- C5: for all thread sets `A` and `B`, the size of the union is at most the
sum of the sizes, with equality exactly when no identity is shared, and the
union is commutative by membership. -/
theorem spec_C5 (A B : Finset ThreadId) :
    tsLen (tsUnionSets A B) ≤ tsLen A + tsLen B ∧
    (tsLen (tsUnionSets A B) = tsLen A + tsLen B ↔ ∀ x, ¬(x ∈ A ∧ x ∈ B)) ∧
    (∀ x, x ∈ tsUnionSets A B ↔ x ∈ tsUnionSets B A) := by
  unfold tsLen tsUnionSets
  refine ⟨Finset.card_union_le A B, ?_, ?_⟩
  · have hsum := Finset.card_union_add_card_inter A B
    constructor
    · intro he x hx
      have hc : (A ∩ B).card = 0 := by omega
      have hemp : A ∩ B = ∅ := Finset.card_eq_zero.mp hc
      have hx2 : x ∈ A ∩ B := Finset.mem_inter.mpr hx
      rw [hemp] at hx2
      exact absurd hx2 (Finset.not_mem_empty x)
    · intro hd
      have hemp : A ∩ B = ∅ := by
        apply Finset.eq_empty_iff_forall_not_mem.mpr
        intro x hx
        exact hd x (Finset.mem_inter.mp hx)
      have hc : (A ∩ B).card = 0 := by rw [hemp]; rfl
      omega
  · intro x
    rw [Finset.union_comm]

/-- Witness for C5 at concrete sets sharing one identity. -/
theorem spec_C5_witness :
    tsLen (tsUnionSets {0, 1} {1, 2}) ≤ tsLen ({0, 1} : Finset ThreadId) + tsLen ({1, 2} : Finset ThreadId) ∧
    (tsLen (tsUnionSets {0, 1} {1, 2}) = tsLen ({0, 1} : Finset ThreadId) + tsLen ({1, 2} : Finset ThreadId) ↔
      ∀ x, ¬(x ∈ ({0, 1} : Finset ThreadId) ∧ x ∈ ({1, 2} : Finset ThreadId))) ∧
    (∀ x, x ∈ tsUnionSets {0, 1} {1, 2} ↔ x ∈ tsUnionSets {1, 2} {0, 1}) :=
  spec_C5 {0, 1} {1, 2}

/-- C3 counterexample: `join` does not return a boolean conveying completion
versus timeout.  Joining a running thread that finishes within the timeout and
joining one whose timeout expires leave the thread in different states yet
produce the very same caller-visible return value (Python's `None`); and
`ThreadSet.join` on started members likewise completes with `None`. -/
theorem spec_C3_cex :
    threadJoin .running true = .ok (.finished, ()) ∧
    threadJoin .running false = .ok (.running, ()) ∧
    Except.map (fun r => r.2) (threadJoin .running true) =
      Except.map (fun r => r.2) (threadJoin .running false) ∧
    (tsJoin (fun _ => true) (fun _ => .running) [0, 1] (some 1)).2.2 = .ok () :=
  ⟨rfl, rfl, rfl, rfl⟩

/-- Joining a thread that was started (running or finished) succeeds, returns
`None`, and leaves the thread in a started state. -/
lemma threadJoin_ok (st : ThreadState) (b : Bool) (h : st ≠ .notStarted) :
    ∃ st2, threadJoin st b = .ok (st2, ()) ∧ st2 ≠ .notStarted := by
  cases st with
  | notStarted => exact absurd rfl h
  | running =>
    cases b
    · exact ⟨.running, rfl, by decide⟩
    · exact ⟨.finished, rfl, by decide⟩
  | finished => exact ⟨.finished, rfl, by decide⟩

/-- When every member of the enumeration was started, the join loop completes
every join with the same timeout and the method returns `None`. -/
lemma tsJoin_ok (fin : ThreadId → Bool) (timeout : Option Rat) :
    ∀ (ms : List ThreadId) (env : Env), (∀ t ∈ ms, env t ≠ .notStarted) →
      (tsJoin fin env ms timeout).2.1 = ms.map (fun t => (t, timeout)) ∧
      (tsJoin fin env ms timeout).2.2 = .ok () := by
  intro ms
  induction ms with
  | nil =>
    intro env _
    exact ⟨rfl, rfl⟩
  | cons t ts ih =>
    intro env h
    obtain ⟨st2, hj, hst2⟩ := threadJoin_ok (env t) (fin t) (h t (List.mem_cons_self t ts))
    have h2 : ∀ u ∈ ts, Function.update env t st2 u ≠ .notStarted := by
      intro u hu
      by_cases hut : u = t
      · rw [hut, Function.update_same]
        exact hst2
      · rw [Function.update_noteq hut]
        exact h u (List.mem_cons_of_mem t hu)
    obtain ⟨i1, i2⟩ := ih (Function.update env t st2) h2
    have hred : tsJoin fin env (t :: ts) timeout =
        ((tsJoin fin (Function.update env t st2) ts timeout).1,
          (t, timeout) :: (tsJoin fin (Function.update env t st2) ts timeout).2.1,
          (tsJoin fin (Function.update env t st2) ts timeout).2.2) := by
      simp [tsJoin, hj]
    rw [hred]
    exact ⟨by simp [i1], i2⟩

/-- When the enumeration reaches a never-started member after a prefix of
started members, that member's `RuntimeError` propagates: the loop aborts
having completed exactly the prefix's joins. -/
lemma tsJoin_err (fin : ThreadId → Bool) (timeout : Option Rat) :
    ∀ (l1 : List ThreadId) (env : Env) (t : ThreadId) (l2 : List ThreadId),
      (∀ u ∈ l1, env u ≠ .notStarted) → env t = .notStarted →
      (tsJoin fin env (l1 ++ t :: l2) timeout).2.2 = .error .runtimeError ∧
      (tsJoin fin env (l1 ++ t :: l2) timeout).2.1 = l1.map (fun u => (u, timeout)) := by
  intro l1
  induction l1 with
  | nil =>
    intro env t l2 _ ht
    have hj : threadJoin (env t) (fin t) = .error .runtimeError := by
      rw [ht]
      rfl
    constructor <;> simp [tsJoin, hj]
  | cons a l1 ih =>
    intro env t l2 h1 ht
    obtain ⟨st2, hj, hst2⟩ := threadJoin_ok (env a) (fin a) (h1 a (List.mem_cons_self a l1))
    have hta : t ≠ a := by
      intro he
      apply h1 a (List.mem_cons_self a l1)
      rw [← he]
      exact ht
    have h1' : ∀ u ∈ l1, Function.update env a st2 u ≠ .notStarted := by
      intro u hu
      by_cases hua : u = a
      · rw [hua, Function.update_same]
        exact hst2
      · rw [Function.update_noteq hua]
        exact h1 u (List.mem_cons_of_mem a hu)
    have ht' : Function.update env a st2 t = .notStarted := by
      rw [Function.update_noteq hta]
      exact ht
    obtain ⟨e1, e2⟩ := ih (Function.update env a st2) t l2 h1' ht'
    have hred : tsJoin fin env ((a :: l1) ++ t :: l2) timeout =
        ((tsJoin fin (Function.update env a st2) (l1 ++ t :: l2) timeout).1,
          (a, timeout) :: (tsJoin fin (Function.update env a st2) (l1 ++ t :: l2) timeout).2.1,
          (tsJoin fin (Function.update env a st2) (l1 ++ t :: l2) timeout).2.2) := by
      simp [tsJoin, hj]
    rw [hred]
    exact ⟨e1, by simp [e2]⟩

/-- C3 amended: for a started handle, `join(timeout)` returns `None` — the
same value whether the handle finished or the timeout expired first, so no
boolean outcome is conveyed — while joining a never-started handle raises
`RuntimeError`.  `ThreadSet.join(timeout)` calls `join(timeout)` on every
member with the same timeout applied to each independently and returns `None`
when every member was started; if the iteration reaches a never-started
member, that `RuntimeError` propagates and aborts the remaining iteration. -/
theorem spec_C3 (fin : ThreadId → Bool) (env : Env) (ms : List ThreadId)
    (timeout : Option Rat) (h : ∀ t ∈ ms, env t ≠ .notStarted) :
    (tsJoin fin env ms timeout).2.1 = ms.map (fun t => (t, timeout)) ∧
    (tsJoin fin env ms timeout).2.2 = .ok () ∧
    (∀ b, threadJoin .running b = .ok (if b then .finished else .running, ())) ∧
    (∀ b, threadJoin .finished b = .ok (.finished, ())) ∧
    (∀ b, threadJoin .notStarted b = .error .runtimeError) ∧
    (∀ (env2 : Env) (l1 : List ThreadId) (t : ThreadId) (l2 : List ThreadId),
      (∀ u ∈ l1, env2 u ≠ .notStarted) → env2 t = .notStarted →
      (tsJoin fin env2 (l1 ++ t :: l2) timeout).2.2 = .error .runtimeError ∧
      (tsJoin fin env2 (l1 ++ t :: l2) timeout).2.1 = l1.map (fun u => (u, timeout))) := by
  obtain ⟨o1, o2⟩ := tsJoin_ok fin timeout ms env h
  exact ⟨o1, o2, fun b => rfl, fun b => rfl, fun b => rfl,
    fun env2 l1 t l2 h1 ht => tsJoin_err fin timeout l1 env2 t l2 h1 ht⟩

/-- C8: `is_alive` returns a generator producing exactly one liveness snapshot
per member, each snapshot taken in the environment current at the consuming
step (the creating call consults no environment), and the generator is finite
and non-restartable: once consumed, further consumption yields nothing. -/
theorem spec_C8 (ms : List ThreadId) (env env2 : Env) :
    (consumeAll (tsIsAlive ms) env).1 = ms.map (fun t => isAlive (env t)) ∧
    (consumeAll (tsIsAlive ms) env).1.length = ms.length ∧
    (∀ t ts, genNext (tsIsAlive (t :: ts)) env = some (isAlive (env t), ⟨ts⟩)) ∧
    genNext ((consumeAll (tsIsAlive ms) env).2) env2 = none ∧
    consumeAll ((consumeAll (tsIsAlive ms) env).2) env2 = ([], ⟨[]⟩) := by
  refine ⟨?_, ?_, fun t ts => rfl, rfl, rfl⟩
  · exact consumeFrom_eq env ms
  · rw [show (consumeAll (tsIsAlive ms) env).1 = consumeFrom env ms from rfl,
      consumeFrom_eq]
    exact List.length_map ms _

/-- C7: membership is idempotent — initialising from a collection holding the
same handle twice collapses to a single occurrence, initialisation keeps
exactly the identities of the collection, and union-updating a set with a set
it already contains changes neither membership, nor size, nor the heap. -/
theorem spec_C7 (a : ThreadId) (l : List ThreadId) (s1 s2 : Finset ThreadId) :
    tsInit (a :: a :: l) = tsInit (a :: l) ∧
    (∀ x, x ∈ tsInit l ↔ x ∈ l) ∧
    (s2 ⊆ s1 →
      tsUnionSets s1 s2 = s1 ∧
      tsLen (tsUnionSets s1 s2) = tsLen s1 ∧
      tsIor [PyVal.tset s1, PyVal.tset s2] 0 1 = .ok ([PyVal.tset s1, PyVal.tset s2], 0)) := by
  refine ⟨?_, fun x => List.mem_toFinset, ?_⟩
  · simp [tsInit]
  · intro hsub
    have hu : tsUnionSets s1 s2 = s1 := Finset.union_eq_left.mpr hsub
    refine ⟨hu, by rw [hu], ?_⟩
    simp [tsIor, hu, List.set]

/-- Witness for C7 at concrete inputs with a duplicated handle and a contained
set. -/
theorem spec_C7_witness :
    tsInit [5, 5, 7] = tsInit [5, 7] ∧
    tsUnionSets {1, 2} {2} = ({1, 2} : Finset ThreadId) ∧
    tsIor [PyVal.tset {1, 2}, PyVal.tset {2}] 0 1 = .ok ([PyVal.tset {1, 2}, PyVal.tset {2}], 0) := by
  have h := spec_C7 5 [7] {1, 2} {2}
  have hsub : ({2} : Finset ThreadId) ⊆ {1, 2} := by decide
  exact ⟨h.1, (h.2.2 hsub).1, (h.2.2 hsub).2.2⟩

/-- Membership in the exit loop's trace: a join call is issued for exactly the
registered threads observed alive, always with the configured timeout. -/
lemma mem_joinLoop {timeout : Option Rat} {env : Env} {l : List ThreadId}
    {t : ThreadId} {τ : Option Rat} :
    (t, τ) ∈ joinLoop timeout env l ↔ t ∈ l ∧ τ = timeout ∧ isAlive (env t) = true := by
  rw [joinLoop_eq]
  constructor
  · intro hm
    obtain ⟨a, ha, heq⟩ := List.mem_map.mp hm
    obtain ⟨ha1, ha2⟩ := List.mem_filter.mp ha
    simp only [Prod.mk.injEq] at heq
    obtain ⟨rfl, rfl⟩ := heq
    exact ⟨ha1, rfl, by simpa using ha2⟩
  · rintro ⟨h1, rfl, h3⟩
    exact List.mem_map.mpr ⟨t, List.mem_filter.mpr ⟨h1, by simpa using h3⟩, rfl⟩

/-- C1: on every exit of the scope — the exception argument, `none` for a
normal or early return and `some e` for a propagating fault, does not change
the behaviour — `__exit__` walks the full registry and joins, with the
manager's configured default timeout, exactly the registered threads observed
alive; a thread observed not alive, in particular a never-started one, gets no
join call at all, so scope exit cannot block on it. -/
theorem spec_C1 (m : ThreadManager) (env : Env) (exc : Option PyErr) :
    (∀ exc2, tmExit m env exc = tmExit m env exc2) ∧
    (∀ t, t ∈ m.threads → isAlive (env t) = true →
      (t, m.join_timeout) ∈ tmExit m env exc) ∧
    (∀ t τ, (t, τ) ∈ tmExit m env exc →
      t ∈ m.threads ∧ τ = m.join_timeout ∧ isAlive (env t) = true) ∧
    (∀ t, env t = .notStarted → ∀ τ, (t, τ) ∉ tmExit m env exc) := by
  refine ⟨fun _ => rfl, ?_, ?_, ?_⟩
  · intro t ht ha
    exact mem_joinLoop.mpr ⟨ht, rfl, ha⟩
  · intro t τ hm
    exact mem_joinLoop.mp hm
  · intro t hns τ hm
    have h3 := (mem_joinLoop.mp hm).2.2
    rw [hns] at h3
    simp [isAlive] at h3

/-- Environment used by concrete witnesses: thread 0 running, thread 1 never
started, every other thread finished. -/
def envW : Env := fun t =>
  if t = 0 then .running else if t = 1 then .notStarted else .finished

/-- Witness for C1: with registry `[0, 1, 2]`, the running thread 0 is joined
with the configured timeout and the never-started thread 1 is skipped. -/
theorem spec_C1_witness :
    ((0, some (2 : Rat)) ∈ tmExit ⟨some 2, [0, 1, 2]⟩ envW none) ∧
    (∀ τ, (1, τ) ∉ tmExit ⟨some 2, [0, 1, 2]⟩ envW none) := by
  have h := spec_C1 ⟨some 2, [0, 1, 2]⟩ envW none
  exact ⟨h.2.1 0 (by simp) rfl, fun τ => h.2.2.2 1 rfl τ⟩

/-- C4: with a `ThreadSet` receiver, both `__or__` and `__ior__` raise
`TypeError` on a non-`ThreadSet` operand; on a `ThreadSet` operand, `__or__`
allocates a new set holding the identity-deduplicated union and leaves both
operands' memberships unchanged, while `__ior__` mutates the receiver into
that union. -/
theorem spec_C4 (h : Heap) (i j : Nat) (s1 : Finset ThreadId)
    (hi : h[i]? = some (.tset s1)) :
    (∀ v, h[j]? = some v → (∀ s, v ≠ .tset s) →
      tsOr h i j = .error .typeError ∧ tsIor h i j = .error .typeError) ∧
    (∀ s2, h[j]? = some (.tset s2) →
      tsOr h i j = .ok (h ++ [.tset (tsUnionSets s1 s2)], h.length) ∧
      (h ++ [.tset (tsUnionSets s1 s2)])[i]? = some (.tset s1) ∧
      (h ++ [.tset (tsUnionSets s1 s2)])[j]? = some (.tset s2) ∧
      (∀ x, x ∈ tsUnionSets s1 s2 ↔ x ∈ s1 ∨ x ∈ s2) ∧
      tsIor h i j = .ok (h.set i (.tset (tsUnionSets s1 s2)), i)) := by
  constructor
  · intro v hj hv
    cases v with
    | tset s => exact absurd rfl (hv s)
    | pyInt n => exact ⟨by simp [tsOr, hj], by simp [tsIor, hj]⟩
    | pyNone => exact ⟨by simp [tsOr, hj], by simp [tsIor, hj]⟩
  · intro s2 hj
    have hilt : i < h.length := by
      by_contra hlt
      rw [List.getElem?_eq_none (by omega)] at hi
      cases hi
    have hjlt : j < h.length := by
      by_contra hlt
      rw [List.getElem?_eq_none (by omega)] at hj
      cases hj
    refine ⟨by simp [tsOr, hj, hi], ?_, ?_, fun x => Finset.mem_union,
      by simp [tsIor, hj, hi]⟩
    · rw [List.getElem?_append, if_pos hilt]
      exact hi
    · rw [List.getElem?_append, if_pos hjlt]
      exact hj

/-- Witness for C4: a concrete heap where the operand is an `int` (TypeError
from both operators) and where it is a `ThreadSet` (union allocated). -/
theorem spec_C4_witness :
    tsOr [PyVal.tset {0}, PyVal.pyInt 3, PyVal.tset {0, 1}] 0 1 = .error .typeError ∧
    tsIor [PyVal.tset {0}, PyVal.pyInt 3, PyVal.tset {0, 1}] 0 1 = .error .typeError ∧
    tsOr [PyVal.tset {0}, PyVal.pyInt 3, PyVal.tset {0, 1}] 0 2 =
      .ok ([PyVal.tset {0}, PyVal.pyInt 3, PyVal.tset {0, 1},
        PyVal.tset (tsUnionSets {0} {0, 1})], 3) := by
  have h1 := spec_C4 [PyVal.tset {0}, PyVal.pyInt 3, PyVal.tset {0, 1}] 0 1 {0} rfl
  have h2 := spec_C4 [PyVal.tset {0}, PyVal.pyInt 3, PyVal.tset {0, 1}] 0 2 {0} rfl
  have he := h1.1 (PyVal.pyInt 3) rfl (fun s hs => by cases hs)
  exact ⟨he.1, he.2, (h2.2 {0, 1} rfl).1⟩

/-- C10: `__ior__` returns the receiver's own reference — the very same
object, not a copy — and the membership of the right operand is unchanged by
the operation (also when the operand is the receiver itself). -/
theorem spec_C10 (h : Heap) (i j : Nat) (s1 s2 : Finset ThreadId)
    (hi : h[i]? = some (.tset s1)) (hj : h[j]? = some (.tset s2)) :
    tsIor h i j = .ok (h.set i (.tset (tsUnionSets s1 s2)), i) ∧
    (h.set i (.tset (tsUnionSets s1 s2)))[j]? = some (.tset s2) := by
  refine ⟨by simp [tsIor, hj, hi], ?_⟩
  by_cases hij : i = j
  · subst hij
    rw [hi] at hj
    simp only [Option.some.injEq, PyVal.tset.injEq] at hj
    subst hj
    have hlt : i < h.length := by
      by_contra hlt
      rw [List.getElem?_eq_none (by omega)] at hi
      cases hi
    rw [show tsUnionSets s1 s1 = s1 from Finset.union_self s1]
    rw [List.getElem?_set_self]
    · exact hlt
  · rw [List.getElem?_set_ne hij]
    exact hj

/-- Witness for C10: in-place union on a concrete two-object heap returns the
receiver's reference and leaves the operand object intact. -/
theorem spec_C10_witness :
    tsIor [PyVal.tset {0}, PyVal.tset {1}] 0 1 =
      .ok ([PyVal.tset {0}, PyVal.tset {1}].set 0 (PyVal.tset (tsUnionSets {0} {1})), 0) ∧
    ([PyVal.tset {0}, PyVal.tset {1}].set 0 (PyVal.tset (tsUnionSets {0} {1})))[1]? =
      some (PyVal.tset {1}) :=
  spec_C10 [PyVal.tset {0}, PyVal.tset {1}] 0 1 {0} {1} rfl rfl

/-- Running a sequence of factory calls from allocator counter `a` appends the
consecutively allocated identities to the registry and returns exactly those
identities, whichever mix of `__call__` and `create_thread` is used. -/
lemma runFactory_eq (timeout : Option Rat) :
    ∀ (ops : List FactoryOp) (a : Nat) (init : List ThreadId),
      runFactory a ⟨timeout, init⟩ ops =
        (a + ops.length, ⟨timeout, init ++ List.range' a ops.length⟩,
          List.range' a ops.length) := by
  intro ops
  induction ops with
  | nil =>
    intro a init
    simp [runFactory, List.range']
  | cons op ops ih =>
    intro a init
    cases op <;>
      simp [runFactory, tmCall, tmCreateThread, ih, List.range'_succ] <;>
      omega

/-- C2: each factory call (`__call__` or `create_thread`) appends the freshly
created thread to the registry before returning and returns that thread; after
any sequence of factory calls — any interleaving of concurrent calls, since
each registry append is a single atomic operation — the registry is the
initial registry followed by exactly one entry per created thread, with no
loss and no duplication. -/
theorem spec_C2 (timeout : Option Rat) (a : Nat) (init : List ThreadId)
    (ops : List FactoryOp) (hfresh : ∀ t ∈ init, t < a) :
    (runFactory a ⟨timeout, init⟩ ops).2.1.threads =
      init ++ (runFactory a ⟨timeout, init⟩ ops).2.2 ∧
    (runFactory a ⟨timeout, init⟩ ops).2.2.Nodup ∧
    (∀ t ∈ (runFactory a ⟨timeout, init⟩ ops).2.2,
      (runFactory a ⟨timeout, init⟩ ops).2.1.threads.count t = 1) ∧
    (runFactory a ⟨timeout, init⟩ ops).2.2.length = ops.length ∧
    (∀ (a2 : Nat) (m2 : ThreadManager),
      (tmCall a2 m2).2.2 ∈ (tmCall a2 m2).2.1.threads ∧
      (tmCreateThread a2 m2).2.2 ∈ (tmCreateThread a2 m2).2.1.threads) := by
  rw [runFactory_eq timeout ops a init]
  refine ⟨rfl, List.nodup_range' a ops.length, ?_,
    List.length_range' a 1 ops.length, ?_⟩
  · intro t ht
    have hmem := List.mem_range'_1.mp ht
    have hnotin : t ∉ init := by
      intro hin
      have h1 : a ≤ t := hmem.1
      have h2 : t < a := hfresh t hin
      exact absurd (lt_of_le_of_lt h1 h2) (lt_irrefl a)
    rw [List.count_append, List.count_eq_zero_of_not_mem hnotin,
      List.count_eq_one_of_mem (List.nodup_range' a ops.length) ht]
  · intro a2 m2
    constructor <;> simp [tmCall, tmCreateThread]

/-- Witness for C2: two factory calls on a fresh manager register exactly the
two created threads. -/
theorem spec_C2_witness :
    (runFactory 0 ⟨none, []⟩ [FactoryOp.call, FactoryOp.createThread]).2.1.threads =
      [] ++ (runFactory 0 ⟨none, []⟩ [FactoryOp.call, FactoryOp.createThread]).2.2 ∧
    (runFactory 0 ⟨none, []⟩ [FactoryOp.call, FactoryOp.createThread]).2.2.Nodup ∧
    (runFactory 0 ⟨none, []⟩ [FactoryOp.call, FactoryOp.createThread]).2.2.length = 2 := by
  have h := spec_C2 none 0 [] [FactoryOp.call, FactoryOp.createThread] (by simp)
  exact ⟨h.1, h.2.1, h.2.2.2.1⟩

/-- Starting a list of threads none of which was started before succeeds,
leaves every listed thread running and every other thread untouched. -/
lemma startList_ok : ∀ (l : List ThreadId) (env : Env), l.Nodup →
    (∀ u ∈ l, env u = .notStarted) →
    (startList env l).2 = none ∧
    (∀ u ∈ l, (startList env l).1 u = .running) ∧
    (∀ u, u ∉ l → (startList env l).1 u = env u) := by
  intro l
  induction l with
  | nil =>
    intro env _ _
    exact ⟨rfl, by simp, fun u _ => rfl⟩
  | cons t ts ih =>
    intro env hnd h
    have hts : env t = .notStarted := h t (List.mem_cons_self t ts)
    have hred : startList env (t :: ts) =
        startList (Function.update env t .running) ts := by
      simp [startList, hts, threadStart]
    obtain ⟨hnd1, hnd2⟩ := List.nodup_cons.mp hnd
    have h2 : ∀ u ∈ ts, Function.update env t ThreadState.running u = .notStarted := by
      intro u hu
      have hut : u ≠ t := by
        intro he
        rw [he] at hu
        exact hnd1 hu
      rw [Function.update_noteq hut]
      exact h u (List.mem_cons_of_mem t hu)
    obtain ⟨i1, i2, i3⟩ := ih (Function.update env t .running) hnd2 h2
    rw [hred]
    refine ⟨i1, ?_, ?_⟩
    · intro u hu
      rcases List.mem_cons.mp hu with rfl | hu2
      · rw [i3 u hnd1, Function.update_same]
      · exact i2 u hu2
    · intro u hu
      have hu1 : u ≠ t := fun he => hu (he ▸ List.mem_cons_self t ts)
      have hu2 : u ∉ ts := fun he => hu (List.mem_cons_of_mem t he)
      rw [i3 u hu2, Function.update_noteq hu1]

/-- Starting a list that reaches an already-started thread after a prefix of
not-started threads raises `RuntimeError` at that thread, having started
exactly the prefix: every thread outside the prefix keeps its prior state. -/
lemma startList_err : ∀ (l1 : List ThreadId) (env : Env) (t : ThreadId)
    (l2 : List ThreadId), (l1 ++ t :: l2).Nodup →
    (∀ u ∈ l1, env u = .notStarted) →
    env t ≠ .notStarted →
    (startList env (l1 ++ t :: l2)).2 = some .runtimeError ∧
    (∀ u, u ∉ l1 → (startList env (l1 ++ t :: l2)).1 u = env u) ∧
    (∀ u ∈ l1, (startList env (l1 ++ t :: l2)).1 u = .running) := by
  intro l1
  induction l1 with
  | nil =>
    intro env t l2 _ _ ht
    have hred : startList env ([] ++ t :: l2) = (env, some PyErr.runtimeError) := by
      cases hst : env t with
      | notStarted => exact absurd hst ht
      | running => simp [startList, hst, threadStart]
      | finished => simp [startList, hst, threadStart]
    rw [hred]
    exact ⟨rfl, fun u _ => rfl, by simp⟩
  | cons a l1 ih =>
    intro env t l2 hnd h1 ht
    have ha : env a = .notStarted := h1 a (List.mem_cons_self a l1)
    have hred : startList env ((a :: l1) ++ t :: l2) =
        startList (Function.update env a .running) (l1 ++ t :: l2) := by
      simp [startList, ha, threadStart]
    have hnd' : (a :: (l1 ++ t :: l2)).Nodup := by simpa using hnd
    obtain ⟨hna, hnd2⟩ := List.nodup_cons.mp hnd'
    have hat : a ≠ t := by
      intro he
      apply hna
      rw [he]
      exact List.mem_append_right l1 (List.mem_cons_self t l2)
    have h1' : ∀ u ∈ l1, Function.update env a ThreadState.running u = .notStarted := by
      intro u hu
      have hua : u ≠ a := by
        intro he
        apply hna
        rw [← he]
        exact List.mem_append_left _ hu
      rw [Function.update_noteq hua]
      exact h1 u (List.mem_cons_of_mem a hu)
    have ht' : Function.update env a ThreadState.running t ≠ .notStarted := by
      rw [Function.update_noteq (fun he => hat he.symm)]
      exact ht
    obtain ⟨e1, e2, e3⟩ := ih (Function.update env a .running) t l2 hnd2 h1' ht'
    rw [hred]
    refine ⟨e1, ?_, ?_⟩
    · intro u hu
      have hu1 : u ≠ a := fun he => hu (he ▸ List.mem_cons_self a l1)
      have hu2 : u ∉ l1 := fun he => hu (List.mem_cons_of_mem a he)
      rw [e2 u hu2, Function.update_noteq hu1]
    · intro u hu
      rcases List.mem_cons.mp hu with rfl | hu2
      · have hna1 : u ∉ l1 := fun he => hna (List.mem_append_left _ he)
        rw [e2 u hna1, Function.update_same]
      · exact e3 u hu2

/-- C6: `ThreadSet.start` calls `start()` on every member — in whatever
(unspecified) order the set is enumerated, all members get started when none
was started before — and if the enumeration reaches an already-started member,
that member's `RuntimeError` propagates to the caller and aborts the remaining
iteration, every member not yet reached keeping its prior state (so members
that were unstarted are left unstarted). -/
theorem spec_C6 (env : Env) (l1 : List ThreadId) (t : ThreadId) (l2 : List ThreadId)
    (hnd : (l1 ++ t :: l2).Nodup)
    (h1 : ∀ u ∈ l1, env u = .notStarted)
    (ht : env t ≠ .notStarted) :
    (startList env (l1 ++ t :: l2)).2 = some .runtimeError ∧
    (∀ u, u ∉ l1 → (startList env (l1 ++ t :: l2)).1 u = env u) ∧
    (∀ u ∈ l1, (startList env (l1 ++ t :: l2)).1 u = .running) ∧
    (∀ (env2 : Env) (l : List ThreadId), l.Nodup →
      (∀ u ∈ l, env2 u = .notStarted) →
      (startList env2 l).2 = none ∧
      (∀ u ∈ l, (startList env2 l).1 u = .running) ∧
      (∀ u, u ∉ l → (startList env2 l).1 u = env2 u)) := by
  obtain ⟨e1, e2, e3⟩ := startList_err l1 env t l2 hnd h1 ht
  exact ⟨e1, e2, e3, fun env2 l hn h => startList_ok l env2 hn h⟩

/-- Environment used by the C6 witness: thread 1 already running, all others
not started. -/
def envW2 : Env := fun t => if t = 1 then .running else .notStarted

/-- Witness for C6: starting the enumeration `[0, 1, 2]` where thread 1 was
already started raises `RuntimeError`, starts thread 0, and leaves the
not-yet-reached thread 2 unstarted. -/
theorem spec_C6_witness :
    (startList envW2 [0, 1, 2]).2 = some .runtimeError ∧
    (startList envW2 [0, 1, 2]).1 2 = envW2 2 ∧
    (startList envW2 [0, 1, 2]).1 0 = .running := by
  have h := spec_C6 envW2 [0] 1 [2] (by decide) (by decide) (by decide)
  exact ⟨h.1, h.2.1 2 (by decide), h.2.2.1 0 (by decide)⟩

/-- Witness for the amended C3 at concrete inputs: joining the started members
0 (running) and 2 (finished) completes both joins and returns `None`, while an
enumeration that reaches the never-started member 1 aborts with `RuntimeError`
having joined only the prefix. -/
theorem spec_C3_witness :
    (tsJoin (fun _ => true) envW [0, 2] (some 5)).2.1 = [(0, some 5), (2, some 5)] ∧
    (tsJoin (fun _ => true) envW [0, 2] (some 5)).2.2 = Except.ok () ∧
    (tsJoin (fun _ => true) envW [0, 1, 2] (some 5)).2.2 = .error .runtimeError ∧
    (tsJoin (fun _ => true) envW [0, 1, 2] (some 5)).2.1 = [(0, some 5)] := by
  have h := spec_C3 (fun _ => true) envW [0, 2] (some 5) (by decide)
  have he := h.2.2.2.2.2 envW [0] 1 [2] (by decide) (by decide)
  exact ⟨h.1, h.2.1, he.1, he.2⟩

/-- Witness for C8 at a concrete member list and environment. -/
theorem spec_C8_witness :
    (consumeAll (tsIsAlive [0, 1]) envW).1 = [isAlive (envW 0), isAlive (envW 1)] ∧
    consumeAll ((consumeAll (tsIsAlive [0, 1]) envW).2) envW = ([], ⟨[]⟩) := by
  have h := spec_C8 [0, 1] envW envW
  exact ⟨h.1, h.2.2.2.2⟩
